import Mathlib

/-!
Shallow embedding of the VeriSource browser-extension core
(`src/extension/inject.js` plus the popup / content-script file) and proofs
about it.  JavaScript strings are modelled as `List Char`; machine-level
byte chunks are modelled as the text the page's `TextDecoder` produces for
them; `JSON.parse` (a platform primitive) is modelled as an abstract
function `Parse : List Char → Option JValue`, `none` standing for a thrown
parse error; JSON numbers are modelled as integers (the miner never
inspects numeric values except for truthiness).
-/

set_option autoImplicit false

namespace VeriSource

/-- A parsed JSON value (`JSON.parse` result).  Object fields are listed in
insertion order with unique keys, as `JSON.parse` produces. -/
inductive JValue where
  | null : JValue
  | bool : Bool → JValue
  | num : Int → JValue
  | str : String → JValue
  | arr : List JValue → JValue
  | obj : List (String × JValue) → JValue

/-- A citation record pushed by `extractSourcesFromPayload`
(`inject.js` line 40/46): `url` is always a string; `title` and
`attribution` are whatever JSON value `s.title || ''` / `s.attribution || ''`
evaluates to. -/
structure Citation where
  url : String
  title : JValue
  attribution : JValue

/-- JavaScript truthiness of a JSON value. -/
def jsTruthy : JValue → Bool
  | .null => false
  | .bool b => b
  | .num n => !(n == 0)
  | .str s => !(s == "")
  | .arr _ => true
  | .obj _ => true

/-- `v || ''` on an (optional) JSON property value. -/
def jsOrEmptyStr : Option JValue → JValue
  | some v => if jsTruthy v then v else .str ("")
  | none => .str ("")

/-- Property lookup on a parsed JSON object (keys unique, first match). -/
def getProp (kvs : List (String × JValue)) (k : String) : Option JValue :=
  match kvs with
  | [] => none
  | (k2, v) :: rest => if k2 = k then some v else getProp rest k

/-- One element of a `sources` / `items` array:
`if (s && typeof s.url === 'string') found.push({ url: s.url, title: s.title || '', attribution: s.attribution || '' })`
(`inject.js` lines 39-40 and 45-46).  Only an object can have a string
`url` property. -/
def citeOfEntry : JValue → List Citation
  | .obj skvs =>
      match getProp skvs ("url") with
      | some (.str u) =>
          [⟨u, jsOrEmptyStr (getProp skvs ("title")),
              jsOrEmptyStr (getProp skvs ("attribution"))⟩]
      | _ => []
  | _ => []

/-- Citations of all elements of a `sources` / `items` array, in order. -/
def citesOfArr : List JValue → List Citation
  | [] => []
  | x :: xs => citeOfEntry x ++ citesOfArr xs

/-- `obj.type === 'sources_footnote'` (`inject.js` line 38). -/
def typeIsFootnote (kvs : List (String × JValue)) : Bool :=
  match getProp kvs ("type") with
  | some (.str t) => t == "sources_footnote"
  | _ => false

/-- `Array.isArray(obj.sources)` part of the guard on `inject.js` line 38,
returning the array. -/
def sourcesArr (kvs : List (String × JValue)) : Option (List JValue) :=
  match getProp kvs ("sources") with
  | some (.arr ss) => some ss
  | _ => none

/-- `if (Array.isArray(obj.items)) ...` (`inject.js` lines 44-48). -/
def itemsCites (kvs : List (String × JValue)) : List Citation :=
  match getProp kvs ("items") with
  | some (.arr xs) => citesOfArr xs
  | _ => []

mutual

/-- `extractSourcesFromPayload` (`inject.js` lines 32-50), with the pushed
citations returned in push order instead of mutating `found`.
Primitives are skipped (line 33); arrays recurse elementwise (lines 34-37);
an object whose `type` is `sources_footnote` and whose `sources` is an
array yields its sources and returns early (lines 38-43); otherwise the
`items` extraction (lines 44-48) runs and then the recursion into every
key's value (line 49). -/
def extractSourcesFromPayload : JValue → List Citation
  | .null => []
  | .bool _ => []
  | .num _ => []
  | .str _ => []
  | .arr xs => extractArr xs
  | .obj kvs =>
      match typeIsFootnote kvs, sourcesArr kvs with
      | true, some ss => citesOfArr ss
      | true, none => itemsCites kvs ++ extractVals kvs
      | false, _ => itemsCites kvs ++ extractVals kvs

/-- Elementwise recursion of `extractSourcesFromPayload` over an array. -/
def extractArr : List JValue → List Citation
  | [] => []
  | x :: xs => extractSourcesFromPayload x ++ extractArr xs

/-- `for (const key of Object.keys(obj)) extractSourcesFromPayload(obj[key], found)`
(`inject.js` line 49): recursion into every key's value, in key order. -/
def extractVals : List (String × JValue) → List Citation
  | [] => []
  | kv :: rest => extractSourcesFromPayload kv.2 ++ extractVals rest

end

/-! ### Event-stream decoder (`consumeStream`, `inject.js` lines 52-122) -/

/-- The platform `JSON.parse` primitive, abstractly: `none` models a thrown
`SyntaxError` (caught and ignored on `inject.js` line 69). -/
def Parse : Type := List Char → Option JValue

/-- A `JSON.parse` that always fails; used to evaluate the pipeline on
lines that the real parser would reject. -/
def parseNone : Parse := fun _ => none

/-- Whitespace for the purposes of `String.prototype.trim`. -/
def isWsChar (c : Char) : Bool :=
  c == ' ' || c == '\t' || c == '\n' || c == '\r' || c == '\x0b' || c == '\x0c'

/-- `line.trim()`: strip whitespace from both ends. -/
def trimWs (l : List Char) : List Char :=
  ((l.dropWhile isWsChar).reverse.dropWhile isWsChar).reverse

/-- The `[DONE]` end-of-stream sentinel (`inject.js` line 65). -/
def doneToken : List Char := ("[DONE]").toList

/-- `processDataLine` (`inject.js` lines 63-72): trim, drop empty lines and
the sentinel, parse the rest as JSON and mine it; a parse failure yields
nothing.  Returns the citations appended to `collected`. -/
def processDataLine (parse : Parse) (line : List Char) : List Citation :=
  let trimmed := trimWs line
  if trimmed = [] ∨ trimmed = doneToken then []
  else
    match parse trimmed with
    | some data => extractSourcesFromPayload data
    | none => []

/-- The `data:` line marker (`inject.js` line 87). -/
def dataMarker : List Char := ("data:").toList

/-- The body of the `while` loop in `processBuffer` applied to one
extracted line (`inject.js` lines 87-90): lines starting with `data:`
have the marker stripped, are trimmed, and go through `processDataLine`;
other lines are dropped. -/
def handleLine (parse : Parse) (line : List Char) : List Citation :=
  if line.take 5 = dataMarker then processDataLine parse (trimWs (line.drop 5))
  else []

/-- `buffer.indexOf('\n')` / `buffer.slice` (`inject.js` lines 84-86):
split the buffer at its first newline, or `none` when it has none. -/
def breakNl : List Char → Option (List Char × List Char)
  | [] => none
  | c :: cs =>
      if c = '\n' then some ([], cs)
      else
        match breakNl cs with
        | none => none
        | some (l, r) => some (c :: l, r)

/-- The per-stream state of `consumeStream`: the pending text `buffer` and
the `collected` citation accumulator (`inject.js` lines 79-80). -/
structure ConsumeState where
  buffer : List Char
  collected : List Citation

/-- The `while` loop of `processBuffer` (`inject.js` lines 82-92), with an
explicit fuel bound; each iteration removes at least the newline character,
so `buffer.length` is enough fuel. -/
def processBufLoop (parse : Parse) : Nat → ConsumeState → ConsumeState
  | 0, st => st
  | fuel + 1, st =>
      match breakNl st.buffer with
      | none => st
      | some (line, rest) =>
          processBufLoop parse fuel
            ⟨rest, st.collected ++ handleLine parse line⟩

/-- `processBuffer` (`inject.js` lines 82-92). -/
def processBuffer (parse : Parse) (st : ConsumeState) : ConsumeState :=
  processBufLoop parse st.buffer.length st

/-- One iteration of the `read` loop for a chunk that arrived
(`inject.js` lines 95-97): decode and append the chunk, then
`processBuffer`. -/
def feedChunk (parse : Parse) (st : ConsumeState) (chunk : List Char) : ConsumeState :=
  processBuffer parse ⟨st.buffer ++ chunk, st.collected⟩

/-- `seen.has(key)` on the model of the `Set` of already-seen urls
(`inject.js` lines 100-103). -/
def seenHas (seen : List String) (u : String) : Bool :=
  match seen with
  | [] => false
  | v :: rest => v == u || seenHas rest u

/-- The stateful `Set`-based dedup filter in the `done` branch
(`inject.js` lines 100-106): keep a citation iff its `url` was not seen
before. -/
def dedupFilter (seen : List String) : List Citation → List Citation
  | [] => []
  | c :: cs =>
      if seenHas seen c.url then dedupFilter seen cs
      else c :: dedupFilter (c.url :: seen) cs

/-- `collected.filter(...)` with the fresh `seen` set
(`inject.js` lines 100-106). -/
def dedupByUrl (cs : List Citation) : List Citation := dedupFilter [] cs

/-- The `window.postMessage` decision of the `done` branch
(`inject.js` lines 108-115): the posted `sources` array, or `none` when
`unique.length > 0` fails and nothing is posted. -/
def donePost (collected : List Citation) : Option (List Citation) :=
  let unique := dedupByUrl collected
  if unique.length > 0 then some unique else none

/-- The `done` branch of the `read` loop (`inject.js` lines 98-117):
one more `processBuffer` pass, then dedup and the conditional post.
Returns the final state and the posted message, if any. -/
def consumeDone (parse : Parse) (st : ConsumeState) :
    ConsumeState × Option (List Citation) :=
  let st2 := processBuffer parse st
  (st2, donePost st2.collected)

/-- `consumeStream` (`inject.js` lines 77-122) run over a complete stream:
the reader yields `chunks` in order and then reports `done` with no value. -/
def consumeStream (parse : Parse) (chunks : List (List Char)) :
    ConsumeState × Option (List Citation) :=
  consumeDone parse (chunks.foldl (feedChunk parse) ⟨[], []⟩)

/-- The content-script message listener (`part_000` lines 248-253):
`lastCitations` is replaced by the posted `sources` array; with no post it
keeps its value.  `GET_CITATIONS` answers with this value. -/
def sinkReceive (lastCitations : List Citation) (msg : Option (List Citation)) :
    List Citation :=
  match msg with
  | some sources => sources
  | none => lastCitations

/-! ### Line-level view of the decoder, for the chunking claims -/

/-- Pure line extraction: the lines `processBuffer` would cut out of a
buffer, and the leftover partial line. -/
def extractLines : List Char → List (List Char) × List Char
  | [] => ([], [])
  | c :: cs =>
      let p := extractLines cs
      if c = '\n' then ([] :: p.1, p.2)
      else
        match p.1 with
        | [] => ([], c :: p.2)
        | l :: ls => ((c :: l) :: ls, p.2)

/-- Decoder state at the line level: pending buffer and emitted lines. -/
structure LineAcc where
  buffer : List Char
  lines : List (List Char)

/-- Line-level view of one `read` iteration. -/
def feedChunkLines (st : LineAcc) (chunk : List Char) : LineAcc :=
  let p := extractLines (st.buffer ++ chunk)
  ⟨p.2, st.lines ++ p.1⟩

/-- All logical lines the decoder emits for a chunked stream, including the
final extraction pass of the `done` branch. -/
def decodeChunks (chunks : List (List Char)) : List (List Char) :=
  let st := chunks.foldl feedChunkLines ⟨[], []⟩
  st.lines ++ (extractLines st.buffer).1

/-! ### URL classifier (`detectServiceFromUrl`, two copies in `part_000`) -/

/-- Split a string at the first `://`, returning the parts before and
after it. -/
def findSchemeSep : List Char → Option (List Char × List Char)
  | [] => none
  | ':' :: '/' :: '/' :: rest => some ([], rest)
  | c :: cs =>
      match findSchemeSep cs with
      | none => none
      | some (b, a) => some (c :: b, a)

/-- Characters ending the authority component of a URL. -/
def authorityDelim (c : Char) : Bool := c == '/' || c == '?' || c == '#'

/-- Model of the platform `new URL(url).hostname` primitive (simplified
WHATWG parsing): the hostname is the text between `://` and the first
`/`, `?`, `#` or `:`; parsing fails (`none`, modelling the thrown
`TypeError`) when there is no `://`, an empty scheme, or an empty host. -/
def parseHostname (url : List Char) : Option (List Char) :=
  match findSchemeSep url with
  | none => none
  | some (scheme, rest) =>
      if scheme = [] then none
      else
        let auth := rest.takeWhile (fun c => !(authorityDelim c))
        let host := auth.takeWhile (fun c => !(c == ':'))
        if host = [] then none else some host

/-- Model of the platform `new URL(url).pathname` primitive, under the
same simplification as `parseHostname`: the text from the end of the
authority up to the first `?` or `#`. -/
def pathnameOf (url : List Char) : Option (List Char) :=
  match findSchemeSep url with
  | none => none
  | some (scheme, rest) =>
      if scheme = [] then none
      else
        let after := rest.dropWhile (fun c => !(authorityDelim c))
        some (after.takeWhile (fun c => !(c == '?' || c == '#')))

/-- `detectServiceFromUrl` as deployed in the popup (`part_000` lines
61-72): empty input and URL-parse failure give `null` (`none`); otherwise
the lowercased hostname is matched exactly against the fixed table, any
other host giving `null`. -/
def detectServiceFromUrl_popup (url : String) : Option String :=
  if url = "" then none
  else
    match parseHostname url.toList with
    | none => none
    | some h =>
        let host := h.map Char.toLower
        if host = ("chatgpt.com").toList ∨ host = ("chat.openai.com").toList then
          some ("chatgpt")
        else if host = ("claude.ai").toList then some ("claude")
        else if host = ("gemini.google.com").toList then some ("gemini")
        else if host = ("perplexity.ai").toList then some ("perplexity")
        else none

/-- `detectServiceFromUrl` as deployed in the content script (`part_000`
lines 274-285); textually the same algorithm as the popup copy. -/
def detectServiceFromUrl_content (url : String) : Option String :=
  if url = "" then none
  else
    match parseHostname url.toList with
    | none => none
    | some h =>
        let host := h.map Char.toLower
        if host = ("chatgpt.com").toList ∨ host = ("chat.openai.com").toList then
          some ("chatgpt")
        else if host = ("claude.ai").toList then some ("claude")
        else if host = ("gemini.google.com").toList then some ("gemini")
        else if host = ("perplexity.ai").toList then some ("perplexity")
        else none

/-- `classify`: `detectServiceFromUrl` with the `service || 'unknown'`
coercion both call sites apply (`part_000` lines 77 and 259). -/
def classify (url : String) : String :=
  match detectServiceFromUrl_content url with
  | some s => s
  | none => ("unknown")

/-! ### Stream tee and interception controller (`inject.js` lines 124-156) -/

/-- `s.includes(sub)`: substring test. -/
def startsWithList : List Char → List Char → Bool
  | [], _ => true
  | _ :: _, [] => false
  | p :: ps, c :: cs => p == c && startsWithList ps cs

/-- `s.includes(sub)` (used on `inject.js` lines 129 and 139). -/
def containsSub (sub : List Char) : List Char → Bool
  | [] => sub.isEmpty
  | c :: cs => startsWithList sub (c :: cs) || containsSub sub cs

/-- `CONVERSATION_PATH` (`inject.js` line 12). -/
def CONVERSATION_PATH : String := "/backend-api/"

/-- `CONVERSATION_SUBPATH` (`inject.js` line 13). -/
def CONVERSATION_SUBPATH : String := "conversation"

/-- The `isConversation` in-scope check (`inject.js` line 129): the url is
truthy and contains both fixed segments, and the method is `POST`. -/
def isConversation (url method : String) : Bool :=
  !(url == "") && containsSub CONVERSATION_PATH.toList url.toList &&
    containsSub CONVERSATION_SUBPATH.toList url.toList && (method == "POST")

/-- The first `fetch` argument: a string, a `Request` instance (which has
both `url` and `method`), some other object with a `url` property, or
anything else. -/
inductive FetchInput where
  | str (url : String)
  | request (url method : String)
  | objWithUrl (url : String)
  | other

/-- The `fetch` init options argument, when present. -/
structure FetchInit where
  method : Option String

/-- `getRequestUrl` (`inject.js` lines 17-21). -/
def getRequestUrl : FetchInput → String
  | .str u => u
  | .request u _ => u
  | .objWithUrl u => u
  | .other => ""

/-- `getRequestMethod` (`inject.js` lines 23-26): a `Request` instance
supplies its own method (`|| 'GET'`); otherwise a truthy `options.method`
is uppercased, and everything else defaults to `GET`. -/
def getRequestMethod (input : FetchInput) (init : Option FetchInit) : String :=
  match input with
  | .request _ m => if m = "" then ("GET") else m
  | _ =>
      match init with
      | some i =>
          match i.method with
          | some m => if m = "" then ("GET") else m.toUpper
          | none => ("GET")
      | none => ("GET")

/-- The response the wrapped `fetch` resolves with.  The body is `none`
for a null body, otherwise the list of text chunks its stream yields. -/
structure MResponse where
  status : Nat
  statusText : String
  headers : List (String × String)
  body : Option (List (List Char))

/-- `response.ok`: status in the 2xx range. -/
def MResponse.ok (r : MResponse) : Bool := 200 ≤ r.status && r.status ≤ 299

/-- `headers.get(name)`, header names stored lowercased. -/
def headerGet (headers : List (String × String)) (name : String) : Option String :=
  match headers with
  | [] => none
  | (k, v) :: rest => if k = name then some v else headerGet rest name

/-- `response.headers.get('content-type') || ''` (`inject.js` line 138). -/
def contentTypeOf (r : MResponse) : String :=
  match headerGet r.headers ("content-type") with
  | some v => v
  | none => ""

/-- The two accepted streaming content types (`inject.js` line 139). -/
def ctAccepted (ct : String) : Bool :=
  containsSub ("text/event-stream").toList ct.toList ||
    containsSub ("text/plain").toList ct.toList

/-- Model of the platform `ReadableStream.tee` primitive: two streams
carrying the same chunks. -/
def streamTee (b : List (List Char)) : List (List Char) × List (List Char) :=
  (b, b)

/-- What one wrapped `fetch` call produces: the response returned to the
page, whether the body was teed (and `consumeStream` started), and the
message the shadow consumption eventually posts, if any. -/
structure FetchOutcome where
  ret : MResponse
  teed : Bool
  posted : Option (List Citation)

/-- The `window.fetch` wrapper (`inject.js` lines 125-156) applied to one
call whose wrapped `fetch` resolves with `resp`: out-of-scope calls pass
the response through untouched; in-scope calls with a non-ok response, a
null body, or an unaccepted content type return it unmodified; otherwise
the body is teed, the shadow stream drives `consumeStream`, and a rebuilt
response with the original status, status text and headers and the first
tee branch is returned. -/
def windowFetch (parse : Parse) (input : FetchInput) (init : Option FetchInit)
    (resp : MResponse) : FetchOutcome :=
  let url := getRequestUrl input
  let method := getRequestMethod input init
  if !(isConversation url method) then ⟨resp, false, none⟩
  else if !(MResponse.ok resp) then ⟨resp, false, none⟩
  else
    match resp.body with
    | none => ⟨resp, false, none⟩
    | some chunks =>
        if !(ctAccepted (contentTypeOf resp)) then ⟨resp, false, none⟩
        else
          let tee := streamTee chunks
          let shadow := consumeStream parse tee.2
          ⟨{ status := resp.status, statusText := resp.statusText,
             headers := resp.headers, body := some tee.1 }, true, shadow.2⟩

/-! ### Claim-side definitions and concrete sample inputs -/

/-- The dedup contract as the specification words it: scan the citations
in encounter order, appending each one whose `url` has not appeared
before (first occurrence wins). -/
def firstWins (cs : List Citation) : List Citation :=
  cs.foldl
    (fun acc c => if acc.any (fun d => d.url == c.url) then acc else acc ++ [c]) []

/-- Citations produced by running the line-processing step over a batch of
already-extracted logical lines, in order. -/
def linesCites (parse : Parse) : List (List Char) → List Citation
  | [] => []
  | l :: ls => handleLine parse l ++ linesCites parse ls

/-- The claim's classification table, applied to the optional hostname a
URL parses to: the specification-side of the C6 statement. -/
def hostTableLookup : Option (List Char) → String
  | none => ("unknown")
  | some h =>
      let lh := h.map Char.toLower
      if lh = ("chatgpt.com").toList ∨ lh = ("chat.openai.com").toList then
        ("chatgpt")
      else if lh = ("claude.ai").toList then ("claude")
      else if lh = ("gemini.google.com").toList then ("gemini")
      else if lh = ("perplexity.ai").toList then ("perplexity")
      else ("unknown")

/-- The in-scope predicate exactly as claim C8 words it: the URL *path*
contains both fixed segments and the method is `POST`. -/
def claimPathInScope (url method : String) : Bool :=
  (match pathnameOf url.toList with
   | some p =>
       containsSub CONVERSATION_PATH.toList p &&
         containsSub CONVERSATION_SUBPATH.toList p
   | none => false) && (method == "POST")

/-- A POST URL whose query string, but not its path, carries both
interception segments. -/
def trickyUrl : String := "https://chatgpt.com/?next=/backend-api/conversation"

/-- A JSON document with an `items` array holding one source. -/
def itemsPayloadJson : JValue :=
  .obj [(("items"), .arr [.obj [(("url"), .str ("x"))]])]

/-- A `JSON.parse` model that accepts every line as `itemsPayloadJson`. -/
def parseStub : Parse := fun _ => some itemsPayloadJson

/-- A final `data:` line that arrives with no terminating newline. -/
def tailChunk : List Char := ("data: \x7b\"url\":\"x\"\x7d").toList

/-- The spec's chunking example in one piece. -/
def chunksWhole : List (List Char) :=
  [("data: \x7b\"a\":1\x7d\n\ndata: [DONE]\n").toList]

/-- The spec's chunking example split mid-line. -/
def chunksSplit : List (List Char) :=
  [("data: \x7b\"a\"").toList, (":1\x7d\n\ndata: [DONE]\n").toList]

/-- A footnote-marked mapping that also has an `items` array and a nested
citation carrier under another key. -/
def footnoteCexKvs : List (String × JValue) :=
  [(("type"), .str ("sources_footnote")),
   (("sources"), .arr [.obj [(("url"), .str ("s1"))]]),
   (("items"), .arr [.obj [(("url"), .str ("i1"))]]),
   (("wrap"), .obj [(("items"), .arr [.obj [(("url"), .str ("n1"))]])])]

/-- A marker-free mapping with a nested citation carrier and an `items`
array. -/
def nfKvs : List (String × JValue) :=
  [(("a"), .obj [(("items"), .arr [.obj [(("url"), .str ("u"))]])]),
   (("items"), .arr [.obj [(("url"), .str ("w"))]])]

/-- Sample citation with url `a`. -/
def cA : Citation := ⟨("a"), .str (""), .str ("")⟩

/-- Sample citation with url `b`. -/
def cB : Citation := ⟨("b"), .str (""), .str ("")⟩

/-- A second citation with url `a` but a different title. -/
def cA2 : Citation := ⟨("a"), .str ("t"), .str ("")⟩

/-- Sample citation with url `c`. -/
def cC : Citation := ⟨("c"), .str (""), .str ("")⟩

/-- A successful event-stream response. -/
def sampleResp : MResponse :=
  ⟨200, ("OK"), [(("content-type"), ("text/event-stream"))],
   some [("data: [DONE]\n").toList]⟩

/-! ## Theorems -/

/-- C7: the popup's and the content script's independently deployed copies
of `detectServiceFromUrl` compute identical output for every input
string. -/
theorem detect_copies_agree (url : String) :
    detectServiceFromUrl_popup url = detectServiceFromUrl_content url := rfl

/-- C9: `processDataLine` discards a line whose trimmed payload is empty,
discards the `[DONE]` sentinel, and silently skips any payload whose JSON
parse fails; being a total function, it never raises and never aborts the
stream for any input line. -/
theorem processDataLine_tolerant (parse : Parse) (line : List Char) :
    (trimWs line = [] → processDataLine parse line = []) ∧
    (trimWs line = doneToken → processDataLine parse line = []) ∧
    (parse (trimWs line) = none → processDataLine parse line = []) := by
  refine ⟨fun h => ?_, fun h => ?_, fun h => ?_⟩ <;> unfold processDataLine
  · simp [h]
  · simp [h]
  · by_cases h2 : trimWs line = [] ∨ trimWs line = doneToken
    · simp [h2]
    · simp [h2, h]

/-- Witness for C9 at concrete lines: a padded sentinel line and an
unparseable line both yield nothing. -/
theorem processDataLine_tolerant_w :
    processDataLine parseNone ((" [DONE] ").toList) = [] ∧
    processDataLine parseNone (("notjson").toList) = [] :=
  ⟨(processDataLine_tolerant parseNone ((" [DONE] ").toList)).2.1 rfl,
   (processDataLine_tolerant parseNone (("notjson").toList)).2.2 rfl⟩

/-- C2 (failing input): a final `data:` line with no terminating newline
is never processed.  After the stream ends, the line is still sitting in
the buffer, nothing was collected and nothing was posted — even with a
parser that accepts every payload and a payload carrying a citation —
whereas the same line followed by a newline is mined and posted. -/
theorem trailing_line_never_flushed :
    (consumeStream parseStub [tailChunk]).1.buffer = tailChunk ∧
    (consumeStream parseStub [tailChunk]).1.collected = [] ∧
    (consumeStream parseStub [tailChunk]).2 = none ∧
    (consumeStream parseStub [tailChunk ++ [('\n')]]).1.collected =
      [⟨("x"), .str (""), .str ("")⟩] ∧
    (consumeStream parseStub [tailChunk ++ [('\n')]]).2 =
      some [⟨("x"), .str (""), .str ("")⟩] :=
  ⟨rfl, rfl, rfl, rfl, rfl⟩

/-- C10: when a completed shadow stream's deduplicated citation list is
empty, no message is posted and the sink keeps the previously stored
citations. -/
theorem empty_result_retains_previous (prev collected : List Citation)
    (h : dedupByUrl collected = []) :
    donePost collected = none ∧ sinkReceive prev (donePost collected) = prev := by
  have hp : donePost collected = none := by
    unfold donePost
    simp [h]
  exact ⟨hp, by rw [hp]; rfl⟩

/-- Witness for C10: a stream completing with no citations leaves a
previously stored citation in place. -/
theorem empty_result_retains_previous_w :
    donePost [] = none ∧ sinkReceive [cA] (donePost []) = [cA] :=
  empty_result_retains_previous [cA] [] rfl

/-- The code's `Set`-based dedup filter agrees with the spec-worded
first-occurrence-wins scan, for any accumulator/seen pair describing the
same set of already-kept urls. -/
theorem foldl_firstWins_eq (cs : List Citation) :
    ∀ (acc : List Citation) (seen : List String),
      (∀ u, seenHas seen u = acc.any (fun d => d.url == u)) →
      cs.foldl
          (fun acc c =>
            if acc.any (fun d => d.url == c.url) then acc else acc ++ [c]) acc
        = acc ++ dedupFilter seen cs := by
  induction cs with
  | nil => intro acc seen _; simp [dedupFilter]
  | cons c cs ih =>
      intro acc seen hinv
      simp only [List.foldl_cons, dedupFilter]
      rw [← hinv c.url]
      by_cases h : seenHas seen c.url = true
      · rw [if_pos h, if_pos h]
        exact ih acc seen hinv
      · rw [if_neg h, if_neg h]
        rw [ih (acc ++ [c]) (c.url :: seen) ?_]
        · simp
        · intro u
          simp only [seenHas, List.any_append, List.any_cons, List.any_nil,
            Bool.or_false]
          rw [← hinv u, Bool.or_comm]

/-- The dedup in the `done` branch is the spec's first-occurrence-wins,
order-preserving dedup by url. -/
theorem dedup_eq_firstWins (cs : List Citation) : dedupByUrl cs = firstWins cs :=
  (foldl_firstWins_eq cs [] [] (fun _ => rfl)).symm

/-- C5 (counterexample): a shadow stream that completes with no citations
does not replace the sink's stored set — the sink keeps the earlier
citation instead of becoming the stream's (empty) deduplicated list. -/
theorem sink_not_replaced_on_empty :
    sinkReceive [cB] (consumeStream parseNone []).2 ≠
      dedupByUrl (consumeStream parseNone []).1.collected := by
  exact List.cons_ne_nil cB []

/-- C5 (amended): when the completed stream's deduplicated citation list
is nonempty, the sink's set becomes exactly that list — deduplicated by
url, first occurrence wins, in encounter order — wholesale replacing
whatever the sink held before, with no accumulation. -/
theorem sink_replace_nonempty (prev collected : List Citation)
    (h : dedupByUrl collected ≠ []) :
    sinkReceive prev (donePost collected) = dedupByUrl collected ∧
    dedupByUrl collected = firstWins collected := by
  refine ⟨?_, dedup_eq_firstWins collected⟩
  cases hd : dedupByUrl collected with
  | nil => exact absurd hd h
  | cons a l => simp [donePost, sinkReceive, hd]

/-- Witness for C5 at the spec's example: completing with
`[a, b, a-duplicate]` over a sink holding `[c]` yields `[a, b]`. -/
theorem sink_replace_nonempty_w :
    dedupByUrl [cA, cB, cA2] ≠ [] ∧
    (sinkReceive [cC] (donePost [cA, cB, cA2]) = dedupByUrl [cA, cB, cA2] ∧
     dedupByUrl [cA, cB, cA2] = firstWins [cA, cB, cA2]) :=
  have h : dedupByUrl [cA, cB, cA2] ≠ [] := by exact List.cons_ne_nil _ _
  ⟨h, sink_replace_nonempty [cC] [cA, cB, cA2] h⟩

/-- The recursion of the miner into object fields collects, for each field,
everything the miner collects on that field's value. -/
theorem mem_extractVals (kvs : List (String × JValue)) (k : String) (v : JValue)
    (hmem : (k, v) ∈ kvs) (c : Citation)
    (hc : c ∈ extractSourcesFromPayload v) : c ∈ extractVals kvs := by
  induction kvs with
  | nil => cases hmem
  | cons kv rest ih =>
      rcases List.mem_cons.1 hmem with h | h
      · subst h
        exact List.mem_append_left _ hc
      · exact List.mem_append_right _ (ih h)

/-- On a mapping where the footnote guard fails (no marker, or `sources`
not an array), the miner runs the `items` extraction followed by the
recursion into every key's value. -/
theorem extract_obj_nonfootnote (kvs : List (String × JValue))
    (h : typeIsFootnote kvs = false ∨ sourcesArr kvs = none) :
    extractSourcesFromPayload (.obj kvs) = itemsCites kvs ++ extractVals kvs := by
  rcases h with h | h
  · simp only [extractSourcesFromPayload, h]
  · cases htf : typeIsFootnote kvs <;> simp only [extractSourcesFromPayload, htf, h]

/-- On a mapping where the footnote guard holds, the miner returns the
sources extraction only. -/
theorem extract_obj_footnote (kvs : List (String × JValue)) (ss : List JValue)
    (h1 : typeIsFootnote kvs = true) (h2 : sourcesArr kvs = some ss) :
    extractSourcesFromPayload (.obj kvs) = citesOfArr ss := by
  simp only [extractSourcesFromPayload, h1, h2]

/-- C3 (counterexample): on a mapping carrying the `sources_footnote`
marker together with an `items` array and a nested citation carrier, the
miner returns only the footnote's sources — the `items` url `i1` and the
nested url `n1` are not extracted, so matching the marker does suppress
the items extraction and the recursion into the other keys. -/
theorem footnote_match_suppresses_items_and_recursion :
    (extractSourcesFromPayload (.obj footnoteCexKvs)).map (fun c => c.url) =
      [("s1")] ∧
    ("i1") ∉ (extractSourcesFromPayload (.obj footnoteCexKvs)).map (fun c => c.url) ∧
    ("n1") ∉ (extractSourcesFromPayload (.obj footnoteCexKvs)).map (fun c => c.url) :=
  ⟨rfl, by decide, by decide⟩

/-- C3 (amended): the items-array extraction and the recursion into every
key's value both apply exactly on mappings where the footnote guard does
not match; when the marker matches (marker field set and `sources` an
array), the node is terminal and only its sources are extracted. -/
theorem miner_obj_behavior (kvs : List (String × JValue)) (c : Citation) :
    ((typeIsFootnote kvs = false ∨ sourcesArr kvs = none) →
       (∀ k v, (k, v) ∈ kvs → c ∈ extractSourcesFromPayload v →
          c ∈ extractSourcesFromPayload (.obj kvs)) ∧
       (∀ xs, getProp kvs ("items") = some (.arr xs) → c ∈ citesOfArr xs →
          c ∈ extractSourcesFromPayload (.obj kvs))) ∧
    (∀ ss, typeIsFootnote kvs = true → sourcesArr kvs = some ss →
       extractSourcesFromPayload (.obj kvs) = citesOfArr ss) := by
  refine ⟨fun hg => ⟨fun k v hmem hc => ?_, fun xs hx hc => ?_⟩,
    fun ss h1 h2 => extract_obj_footnote kvs ss h1 h2⟩
  · rw [extract_obj_nonfootnote kvs hg]
    exact List.mem_append_right _ (mem_extractVals kvs k v hmem c hc)
  · rw [extract_obj_nonfootnote kvs hg]
    refine List.mem_append_left _ ?_
    simp only [itemsCites, hx]
    exact hc

/-- Witness for C3 (amended) on a marker-free mapping: a citation nested
under another key and a citation in the `items` array both appear in the
mapping's extraction. -/
theorem miner_obj_behavior_w :
    (⟨("u"), .str (""), .str ("")⟩ : Citation) ∈
      extractSourcesFromPayload (.obj nfKvs) ∧
    (⟨("w"), .str (""), .str ("")⟩ : Citation) ∈
      extractSourcesFromPayload (.obj nfKvs) := by
  constructor
  · exact ((miner_obj_behavior nfKvs _).1 (Or.inl rfl)).1 (("a"))
      (.obj [(("items"), .arr [.obj [(("url"), .str ("u"))]])])
      (List.mem_cons_self _ _) (List.Mem.head _)
  · exact ((miner_obj_behavior nfKvs _).1 (Or.inl rfl)).2
      [.obj [(("url"), .str ("w"))]] rfl (List.Mem.head _)

/-- `classify` factors through the hostname and the fixed table. -/
theorem classify_eq_table (url : String) :
    classify url = hostTableLookup (parseHostname url.toList) := by
  unfold classify detectServiceFromUrl_content hostTableLookup
  by_cases h : url = ""
  · subst h; rfl
  · simp only [if_neg h]
    cases hp : parseHostname url.toList with
    | none => rfl
    | some hn =>
        simp only []
        split_ifs <;> rfl

/-- C6: `classify` is a deterministic total function of the URL's
hostname: it equals the fixed case-insensitive table lookup on the parsed
hostname — so any URL whose lowercased hostname matches a table entry
gets that identifier regardless of path, query or fragment, every other
input (including empty and unparseable URLs) gets `unknown`, and two URLs
with the same hostname always classify identically.  Totality (never
raises) holds by construction: `classify` is a total function. -/
theorem classify_hostname_total (url : String) :
    classify url = hostTableLookup (parseHostname url.toList) ∧
    ∀ url2 : String, parseHostname url2.toList = parseHostname url.toList →
      classify url2 = classify url :=
  ⟨classify_eq_table url, fun u2 h => by
    rw [classify_eq_table u2, classify_eq_table url, h]⟩

/-- Witness for C6: a chatgpt URL with path, query and fragment matches
the table, and a same-host URL with a different path classifies the
same. -/
theorem classify_hostname_total_w :
    classify ("https://chatgpt.com/c/abc?q=1#frag") =
      hostTableLookup (parseHostname (("https://chatgpt.com/c/abc?q=1#frag").toList)) ∧
    classify ("https://chatgpt.com/zzz") = classify ("https://chatgpt.com/c/abc?q=1#frag") :=
  ⟨(classify_hostname_total ("https://chatgpt.com/c/abc?q=1#frag")).1,
   (classify_hostname_total ("https://chatgpt.com/c/abc?q=1#frag")).2
     ("https://chatgpt.com/zzz") rfl⟩

/-- C8 (counterexample): a POST request whose URL carries both fixed
segments only in its query string is in scope for the code's check even
though its URL path contains neither segment — the in-scope predicate is
a substring test on the whole URL string, not on the path. -/
theorem scope_not_path_based :
    isConversation trickyUrl ("POST") = true ∧
    claimPathInScope trickyUrl ("POST") = false :=
  ⟨rfl, rfl⟩

/-- C8 (amended): a call is in scope iff its full URL string contains both
the fixed base segment and the fixed action segment and its method is
POST; every out-of-scope call returns the upstream response object
untouched, with no tee and no decoder run and nothing posted. -/
theorem scope_string_iff_and_passthrough (url method : String) (parse : Parse)
    (input : FetchInput) (init : Option FetchInit) (resp : MResponse) :
    (isConversation url method = true ↔
      (containsSub CONVERSATION_PATH.toList url.toList = true ∧
       containsSub CONVERSATION_SUBPATH.toList url.toList = true ∧
       method = ("POST"))) ∧
    (isConversation (getRequestUrl input) (getRequestMethod input init) = false →
      windowFetch parse input init resp = ⟨resp, false, none⟩) := by
  constructor
  · unfold isConversation
    constructor
    · intro h
      simp only [Bool.and_eq_true, beq_iff_eq] at h
      exact ⟨h.1.1.2, h.1.2, h.2⟩
    · rintro ⟨h1, h2, h3⟩
      have hu : url ≠ "" := by
        intro he
        rw [he] at h1
        exact Bool.noConfusion h1
      simp only [Bool.and_eq_true, beq_iff_eq, bne_iff_ne, ne_eq]
      refine ⟨⟨⟨?_, h1⟩, h2⟩, h3⟩
      simp [hu]
  · intro h
    unfold windowFetch
    simp [h]

/-- Witness for C8 at a concrete out-of-scope call: a GET to an unrelated
URL passes through unmodified, with no tee and no post. -/
theorem scope_string_iff_and_passthrough_w :
    windowFetch parseNone (.str ("https://example.org/a")) none sampleResp =
      ⟨sampleResp, false, none⟩ :=
  (scope_string_iff_and_passthrough ("https://example.org/a") ("GET") parseNone
    (.str ("https://example.org/a")) none sampleResp).2 rfl

/-- C1: for every wrapped call, the response the original caller observes
carries the original status, status text and headers, and its body is
byte-identical content to the original body (the same chunks, via the
tee); an out-of-scope call gets the original response object itself,
untouched. -/
theorem fetch_wrapper_preserves_response (parse : Parse) (input : FetchInput)
    (init : Option FetchInit) (resp : MResponse) :
    ((windowFetch parse input init resp).ret.status = resp.status ∧
     (windowFetch parse input init resp).ret.statusText = resp.statusText ∧
     (windowFetch parse input init resp).ret.headers = resp.headers ∧
     (windowFetch parse input init resp).ret.body = resp.body) ∧
    (isConversation (getRequestUrl input) (getRequestMethod input init) = false →
      (windowFetch parse input init resp).ret = resp) := by
  obtain ⟨st, stx, hd, body⟩ := resp
  unfold windowFetch
  cases hc : isConversation (getRequestUrl input) (getRequestMethod input init) with
  | false => simp [hc]
  | true =>
      refine ⟨?_, fun h => Bool.noConfusion h⟩
      cases hok : MResponse.ok ⟨st, stx, hd, body⟩ with
      | false => simp [hc, hok]
      | true =>
          cases body with
          | none => simp [hc, hok]
          | some chunks =>
              cases hct : ctAccepted (contentTypeOf ⟨st, stx, hd, some chunks⟩) with
              | false => simp [hc, hok, hct]
              | true => simp [hc, hok, hct, streamTee]

/-- Witness for C1 at a concrete out-of-scope call: the returned response
is the upstream response itself. -/
theorem fetch_wrapper_preserves_response_w :
    (windowFetch parseNone (.str ("https://example.com/api")) none sampleResp).ret =
      sampleResp :=
  (fetch_wrapper_preserves_response parseNone (.str ("https://example.com/api"))
    none sampleResp).2 rfl

/-- If line extraction cuts no line out of a buffer, it leaves the buffer
unchanged. -/
theorem extractLines_fst_nil (cs : List Char) (h : (extractLines cs).1 = []) :
    (extractLines cs).2 = cs := by
  induction cs with
  | nil => rfl
  | cons c cs ih =>
      by_cases hc : c = '\n'
      · subst hc
        simp [extractLines] at h
      · cases hp : (extractLines cs).1 with
        | nil => simp [extractLines, hc, hp, ih hp]
        | cons l ls => simp [extractLines, hc, hp] at h

/-- The residue left by line extraction contains no newline. -/
theorem newline_not_in_rest (cs : List Char) : ('\n') ∉ (extractLines cs).2 := by
  induction cs with
  | nil => simp [extractLines]
  | cons c cs ih =>
      by_cases hc : c = '\n'
      · subst hc
        simpa [extractLines] using ih
      · cases hp : (extractLines cs).1 with
        | nil =>
            rw [show (extractLines (c :: cs)).2 = c :: (extractLines cs).2 from by
              simp [extractLines, hc, hp]]
            intro hmem
            rcases List.mem_cons.1 hmem with h | h
            · exact hc h.symm
            · exact ih h
        | cons l ls =>
            rw [show (extractLines (c :: cs)).2 = (extractLines cs).2 from by
              simp [extractLines, hc, hp]]
            exact ih

/-- On a newline-free buffer, line extraction emits nothing and keeps the
buffer. -/
theorem extractLines_no_newline (cs : List Char) (h : ('\n') ∉ cs) :
    extractLines cs = ([], cs) := by
  induction cs with
  | nil => rfl
  | cons c cs ih =>
      have hc : ¬(c = '\n') := fun he => h (by rw [he]; exact List.mem_cons_self _ _)
      have ih2 := ih (fun hm => h (List.mem_cons_of_mem c hm))
      simp [extractLines, hc, ih2]

/-- When the buffer has no newline, `breakNl` finding nothing matches
`extractLines` emitting nothing. -/
theorem breakNl_none_extract (cs : List Char) (h : breakNl cs = none) :
    extractLines cs = ([], cs) := by
  induction cs with
  | nil => rfl
  | cons c cs ih =>
      by_cases hc : c = '\n'
      · subst hc
        simp [breakNl] at h
      · cases hb : breakNl cs with
        | none => simp [extractLines, hc, ih hb]
        | some lr =>
            obtain ⟨l, r⟩ := lr
            simp [breakNl, hc, hb] at h

/-- When `breakNl` splits off a first line, `extractLines` emits that line
followed by the lines of the remainder. -/
theorem breakNl_some_extract (cs : List Char) :
    ∀ l r, breakNl cs = some (l, r) →
      extractLines cs = (l :: (extractLines r).1, (extractLines r).2) := by
  induction cs with
  | nil => intro l r h; exact Option.noConfusion h
  | cons c cs ih =>
      intro l r h
      by_cases hc : c = '\n'
      · subst hc
        have h2 : some (([] : List Char), cs) = some (l, r) := by rw [← h]; rfl
        injection h2 with h2
        injection h2 with hl hr
        subst hl
        subst hr
        simp [extractLines]
      · cases hb : breakNl cs with
        | none =>
            exfalso
            have hnone : breakNl (c :: cs) = none := by simp [breakNl, hc, hb]
            rw [hnone] at h
            exact Option.noConfusion h
        | some lr =>
            obtain ⟨l2, r2⟩ := lr
            have h2 : some (c :: l2, r2) = some (l, r) := by
              rw [← h]
              simp [breakNl, hc, hb]
            injection h2 with h2
            injection h2 with hl hr
            subst hl
            subst hr
            have ihh := ih l2 r2 hb
            simp [extractLines, hc, ihh]

/-- The remainder `breakNl` returns is strictly shorter than its input. -/
theorem breakNl_some_length (cs : List Char) :
    ∀ l r, breakNl cs = some (l, r) → r.length < cs.length := by
  induction cs with
  | nil => intro l r h; exact Option.noConfusion h
  | cons c cs ih =>
      intro l r h
      by_cases hc : c = '\n'
      · subst hc
        have h2 : some (([] : List Char), cs) = some (l, r) := by rw [← h]; rfl
        injection h2 with h2
        injection h2 with hl hr
        subst hr
        simp
      · cases hb : breakNl cs with
        | none =>
            exfalso
            have hnone : breakNl (c :: cs) = none := by simp [breakNl, hc, hb]
            rw [hnone] at h
            exact Option.noConfusion h
        | some lr =>
            obtain ⟨l2, r2⟩ := lr
            have h2 : some (c :: l2, r2) = some (l, r) := by
              rw [← h]
              simp [breakNl, hc, hb]
            injection h2 with h2
            injection h2 with hl hr
            subst hr
            exact Nat.lt_trans (ih l2 r2 hb) (by simp)

/-- Line batching distributes over the per-line citation step. -/
theorem linesCites_append (parse : Parse) (xs ys : List (List Char)) :
    linesCites parse (xs ++ ys) = linesCites parse xs ++ linesCites parse ys := by
  induction xs with
  | nil => simp [linesCites]
  | cons x xs ih => simp [linesCites, ih]

/-- The `processBuffer` loop, given enough fuel, is line extraction
followed by the per-line processing of each extracted line in order. -/
theorem processBufLoop_extract (parse : Parse) :
    ∀ (fuel : Nat) (st : ConsumeState), st.buffer.length ≤ fuel →
      processBufLoop parse fuel st =
        ⟨(extractLines st.buffer).2,
         st.collected ++ linesCites parse (extractLines st.buffer).1⟩ := by
  intro fuel
  induction fuel with
  | zero =>
      intro st hle
      obtain ⟨buf, col⟩ := st
      have hb : buf = [] := List.eq_nil_of_length_eq_zero (Nat.le_zero.1 hle)
      subst hb
      simp [processBufLoop, extractLines, linesCites]
  | succ fuel ih =>
      intro st hle
      obtain ⟨buf, col⟩ := st
      cases hb : breakNl buf with
      | none =>
          have he := breakNl_none_extract buf hb
          simp [processBufLoop, hb, he, linesCites]
      | some lr =>
          obtain ⟨line, rest⟩ := lr
          have he := breakNl_some_extract buf line rest hb
          have hlen : rest.length ≤ fuel :=
            Nat.lt_succ_iff.1
              (Nat.lt_of_lt_of_le (breakNl_some_length buf line rest hb) hle)
          have ihh := ih ⟨rest, col ++ handleLine parse line⟩ hlen
          simp [processBufLoop, hb, he, ihh, linesCites, List.append_assoc]

/-- `processBuffer` is line extraction plus per-line processing. -/
theorem processBuffer_extract (parse : Parse) (st : ConsumeState) :
    processBuffer parse st =
      ⟨(extractLines st.buffer).2,
       st.collected ++ linesCites parse (extractLines st.buffer).1⟩ :=
  processBufLoop_extract parse st.buffer.length st (Nat.le_refl _)

/-- Line extraction over an appended buffer: the first part's complete
lines come out unchanged, and its residue is prepended to the second
part. -/
theorem extractLines_append (a b : List Char) :
    extractLines (a ++ b) =
      ((extractLines a).1 ++ (extractLines ((extractLines a).2 ++ b)).1,
       (extractLines ((extractLines a).2 ++ b)).2) := by
  induction a with
  | nil => simp [extractLines]
  | cons c cs ih =>
      by_cases hc : c = '\n'
      · subst hc
        have h1 : extractLines (('\n') :: (cs ++ b)) =
            ([] :: (extractLines (cs ++ b)).1, (extractLines (cs ++ b)).2) := by
          simp [extractLines]
        have h2 : extractLines (('\n') :: cs) =
            ([] :: (extractLines cs).1, (extractLines cs).2) := by
          simp [extractLines]
        rw [List.cons_append, h1, h2, ih]
        simp
      · cases hp : (extractLines cs).1 with
        | nil =>
            have h2 : (extractLines cs).2 = cs := extractLines_fst_nil cs hp
            have heq : extractLines (c :: cs) = ([], c :: cs) := by
              simp [extractLines, hc, hp, h2]
            rw [heq]
            simp
        | cons l ls =>
            have hcons : extractLines (c :: cs) =
                ((c :: l) :: ls, (extractLines cs).2) := by
              simp [extractLines, hc, hp]
            have hL1 : (extractLines (cs ++ b)).1 =
                l :: (ls ++ (extractLines ((extractLines cs).2 ++ b)).1) := by
              rw [ih]
              simp [hp]
            have hL2 : (extractLines (cs ++ b)).2 =
                (extractLines ((extractLines cs).2 ++ b)).2 := by
              rw [ih]
            rw [List.cons_append, hcons]
            simp [extractLines, hc, hL1, hL2]

/-- Folding the per-chunk step from any residue state is line extraction
over the residue followed by all the chunks. -/
theorem foldl_feedChunk_join (parse : Parse) (chunks : List (List Char)) :
    ∀ (buf : List Char) (col : List Citation), ('\n') ∉ buf →
      chunks.foldl (feedChunk parse) ⟨buf, col⟩ =
        ⟨(extractLines (buf ++ chunks.flatten)).2,
         col ++ linesCites parse (extractLines (buf ++ chunks.flatten)).1⟩ := by
  induction chunks with
  | nil =>
      intro buf col hnb
      simp [extractLines_no_newline buf hnb, linesCites]
  | cons ch chunks ih =>
      intro buf col hnb
      have hstep : feedChunk parse ⟨buf, col⟩ ch =
          ⟨(extractLines (buf ++ ch)).2,
           col ++ linesCites parse (extractLines (buf ++ ch)).1⟩ :=
        processBuffer_extract parse ⟨buf ++ ch, col⟩
      rw [List.foldl_cons, hstep, ih _ _ (newline_not_in_rest (buf ++ ch))]
      simp only [List.flatten_cons]
      rw [← List.append_assoc, extractLines_append (buf ++ ch) chunks.flatten]
      simp [linesCites_append, List.append_assoc]

/-- Line-level analogue of `foldl_feedChunk_join`. -/
theorem foldl_feedChunkLines_join (chunks : List (List Char)) :
    ∀ (buf : List Char) (lns : List (List Char)), ('\n') ∉ buf →
      chunks.foldl feedChunkLines ⟨buf, lns⟩ =
        ⟨(extractLines (buf ++ chunks.flatten)).2,
         lns ++ (extractLines (buf ++ chunks.flatten)).1⟩ := by
  induction chunks with
  | nil =>
      intro buf lns hnb
      simp [extractLines_no_newline buf hnb]
  | cons ch chunks ih =>
      intro buf lns hnb
      have hstep : feedChunkLines ⟨buf, lns⟩ ch =
          ⟨(extractLines (buf ++ ch)).2, lns ++ (extractLines (buf ++ ch)).1⟩ := rfl
      rw [List.foldl_cons, hstep, ih _ _ (newline_not_in_rest (buf ++ ch))]
      simp only [List.flatten_cons]
      rw [← List.append_assoc, extractLines_append (buf ++ ch) chunks.flatten]
      simp [List.append_assoc]

/-- The decoder's emitted lines are a function of the concatenated input
alone. -/
theorem decodeChunks_join (chunks : List (List Char)) :
    decodeChunks chunks = (extractLines chunks.flatten).1 := by
  unfold decodeChunks
  rw [foldl_feedChunkLines_join chunks [] [] (by simp)]
  simp [extractLines_no_newline _ (newline_not_in_rest chunks.flatten)]

/-- The whole stream consumption — final state and posted message — is a
function of the concatenated input alone. -/
theorem consumeStream_join (parse : Parse) (chunks : List (List Char)) :
    consumeStream parse chunks =
      (⟨(extractLines chunks.flatten).2,
        linesCites parse (extractLines chunks.flatten).1⟩,
       donePost (linesCites parse (extractLines chunks.flatten).1)) := by
  unfold consumeStream consumeDone
  rw [foldl_feedChunk_join parse chunks [] [] (by simp)]
  rw [processBuffer_extract]
  simp [extractLines_no_newline _ (newline_not_in_rest chunks.flatten), linesCites]

/-- C4: line extraction commutes with chunk boundaries — any two chunkings
of the same byte sequence make the decoder emit the same sequence of
logical lines, and the whole consumption (collected citations, final
buffer and posted message) agrees as well, for any parser. -/
theorem decoder_chunk_invariance (c1 c2 : List (List Char)) (parse : Parse)
    (h : c1.flatten = c2.flatten) :
    decodeChunks c1 = decodeChunks c2 ∧
    consumeStream parse c1 = consumeStream parse c2 := by
  constructor
  · rw [decodeChunks_join, decodeChunks_join, h]
  · rw [consumeStream_join, consumeStream_join, h]

/-- Witness for C4 on the spec's example, split mid-line versus whole. -/
theorem decoder_chunk_invariance_w :
    chunksWhole.flatten = chunksSplit.flatten ∧
    (decodeChunks chunksWhole = decodeChunks chunksSplit ∧
     consumeStream parseNone chunksWhole = consumeStream parseNone chunksSplit) :=
  ⟨rfl, decoder_chunk_invariance chunksWhole chunksSplit parseNone rfl⟩

end VeriSource
